import Mathlib

/-!
Verification of the board-representation layer of magenta-chess.

The definitions below are a shallow embedding of the Rust sources
`src/types.rs`, `src/bitboard.rs` and `src/position.rs`.  Machine
integers (`u8`, `u32`, `u64`) are embedded as `Nat`; every operation the
code performs on them (bitwise or, right shift of the constant 1,
bounded parsing) stays below the corresponding power of two, and where
the code can overflow or underflow the embedding makes the failure an
explicit error value, mirroring the way a Rust debug build aborts.
Fallible operations (slice indexing, `unwrap`, explicit aborts in match
arms) are embedded in `Except FenError`.
-/

/-- `Bitboard` (src/bitboard.rs): a newtype over `u64`.  Embedded as `Nat`;
the only operations the sources use are bitwise or (which never leaves
the 64-bit range when both arguments are in it) and the shift inside
`Square.to_bb`, whose value is at most 1. -/
abbrev Bitboard := Nat

/-- `Color` (src/types.rs): White = 0, Black = 1. -/
inductive Color
  | White
  | Black
deriving DecidableEq, Repr, Fintype

/-- The integer tag of a `Color`, as used for array indexing (`color as usize`). -/
def Color.toNat : Color → Nat
  | .White => 0
  | .Black => 1

/-- `PieceType` (src/types.rs): eight tags with values 0..7. -/
inductive PieceType
  | None
  | P
  | N
  | B
  | R
  | Q
  | K
  | All
deriving DecidableEq, Repr, Fintype

/-- The integer tag of a `PieceType` (`piece_type as u8`). -/
def PieceType.toNat : PieceType → Nat
  | .None => 0
  | .P => 1
  | .N => 2
  | .B => 3
  | .R => 4
  | .Q => 5
  | .K => 6
  | .All => 7

/-- `Piece` (src/types.rs): bit 3 is the color bit, bits 0-2 the kind. -/
inductive Piece
  | None
  | WhitePawn
  | WhiteKnight
  | WhiteBishop
  | WhiteRook
  | WhiteQueen
  | WhiteKing
  | BlackPawn
  | BlackKnight
  | BlackBishop
  | BlackRook
  | BlackQueen
  | BlackKing
deriving DecidableEq, Repr

/-- The `u8` discriminant of each `Piece` variant, as written in the source. -/
def Piece.toBits : Piece → Nat
  | .None        => 0b0000
  | .WhitePawn   => 0b0001
  | .WhiteKnight => 0b0010
  | .WhiteBishop => 0b0011
  | .WhiteRook   => 0b0100
  | .WhiteQueen  => 0b0101
  | .WhiteKing   => 0b0110
  | .BlackPawn   => 0b1001
  | .BlackKnight => 0b1010
  | .BlackBishop => 0b1011
  | .BlackRook   => 0b1100
  | .BlackQueen  => 0b1101
  | .BlackKing   => 0b1110

/-- `Piece::make` (src/types.rs lines 42-59): packs the color bit above the
kind tag and matches the result back to a variant; every unmatched bit
pattern (kind None or All, under either color) falls through to `None`. -/
def Piece.make (color : Color) (piece_type : PieceType) : Piece :=
  let bits : Nat := (color.toNat <<< 3) ||| piece_type.toNat
  match bits with
  | 0b0001 => .WhitePawn
  | 0b0010 => .WhiteKnight
  | 0b0011 => .WhiteBishop
  | 0b0100 => .WhiteRook
  | 0b0101 => .WhiteQueen
  | 0b0110 => .WhiteKing
  | 0b1001 => .BlackPawn
  | 0b1010 => .BlackKnight
  | 0b1011 => .BlackBishop
  | 0b1100 => .BlackRook
  | 0b1101 => .BlackQueen
  | 0b1110 => .BlackKing
  | _ => .None

/-- `Piece::color` (src/types.rs lines 61-64): extracts bit 3. -/
def Piece.color (p : Piece) : Color :=
  let color_bit := (p.toBits >>> 3) &&& 0b1
  if color_bit = 0 then Color.White else Color.Black

/-- `Piece::type_of` (src/types.rs lines 66-79): extracts bits 0-2 and maps
them through the eight `PieceType` tags. -/
def Piece.type_of (p : Piece) : PieceType :=
  let piece_type := p.toBits &&& 0b0111
  match piece_type with
  | 0 => PieceType.None
  | 1 => PieceType.P
  | 2 => PieceType.N
  | 3 => PieceType.B
  | 4 => PieceType.R
  | 5 => PieceType.Q
  | 6 => PieceType.K
  | 7 => PieceType.All
  | _ => PieceType.None

/-- `Square` (src/types.rs line 119): a newtype over `u8`.  The 64 real
squares carry values 0..63 (A1 = 0, ..., H8 = 63) and the sentinel
`NONE` carries 64. -/
structure Square where
  val : Nat
deriving DecidableEq, Repr

/-- `Square::index` (src/types.rs lines 192-194). -/
def Square.index (s : Square) : Nat := s.val

/-- `Square::to_bb` (src/types.rs lines 196-198): the source computes
`Bitboard(1u64 >> self.0 as u64)` - a RIGHT shift of the constant 1. -/
def Square.to_bb (s : Square) : Bitboard := 1 >>> s.val

/-- Square constants used by the en-passant decoder (src/types.rs). -/
def Square.A3 : Square := ⟨16⟩

def Square.B3 : Square := ⟨17⟩

def Square.C3 : Square := ⟨18⟩

def Square.D3 : Square := ⟨19⟩

def Square.E3 : Square := ⟨20⟩

def Square.F3 : Square := ⟨21⟩

def Square.G3 : Square := ⟨22⟩

def Square.H3 : Square := ⟨23⟩

/-- `Square::NONE` (src/types.rs line 188). -/
def Square.NONE : Square := ⟨64⟩

/-- `Castling` (src/types.rs lines 201-224): a 4-bit set in a `u8`. -/
structure Castling where
  val : Nat
deriving DecidableEq, Repr

def Castling.C_WHITE_K : Castling := ⟨0b1000⟩

def Castling.C_WHITE_Q : Castling := ⟨0b0100⟩

def Castling.C_BLACK_K : Castling := ⟨0b0010⟩

def Castling.C_BLACK_Q : Castling := ⟨0b0001⟩

def Castling.C_ALL : Castling := ⟨0b1111⟩

def Castling.C_NONE : Castling := ⟨0b0000⟩

/-- `BitOr for Castling` (src/types.rs lines 215-220). -/
def Castling.or (a b : Castling) : Castling := ⟨a.val ||| b.val⟩

/-- `Position` (src/position.rs lines 38-57).  The three parallel board
representations are embedded as lists of fixed length: `bbs` has 8
entries (indexed by `PieceType` tag), `bbs_color` has 2 (indexed by
`Color` tag) and `board` has 64 (indexed by square index). -/
structure Position where
  bbs : List Bitboard
  bbs_color : List Bitboard
  board : List Piece
  turn : Color
  castle_rights : Castling
  ep_square : Square
  rule50_count : Nat
  game_ply : Nat
deriving DecidableEq, Repr

/-- `Position::put_piece` (src/position.rs lines 172-176): writes the piece
into the direct array and ors the singleton of the square into the
per-kind and per-color bitboards selected by the projections of `pc`. -/
def Position.put_piece (p : Position) (pc : Piece) (s : Square) : Position :=
  { p with
    board := p.board.set s.index pc
    bbs := p.bbs.set pc.type_of.toNat ((p.bbs.getD pc.type_of.toNat 0) ||| s.to_bb)
    bbs_color := p.bbs_color.set pc.color.toNat
      ((p.bbs_color.getD pc.color.toNat 0) ||| s.to_bb) }

/-- `SQ_DISPLAY_ORDER` (src/position.rs lines 16-25): A8..H8, A7..H7, ...,
A1..H1, written with the numeric index of each named constant. -/
def SQ_DISPLAY_ORDER : List Square :=
  [⟨56⟩, ⟨57⟩, ⟨58⟩, ⟨59⟩, ⟨60⟩, ⟨61⟩, ⟨62⟩, ⟨63⟩,
   ⟨48⟩, ⟨49⟩, ⟨50⟩, ⟨51⟩, ⟨52⟩, ⟨53⟩, ⟨54⟩, ⟨55⟩,
   ⟨40⟩, ⟨41⟩, ⟨42⟩, ⟨43⟩, ⟨44⟩, ⟨45⟩, ⟨46⟩, ⟨47⟩,
   ⟨32⟩, ⟨33⟩, ⟨34⟩, ⟨35⟩, ⟨36⟩, ⟨37⟩, ⟨38⟩, ⟨39⟩,
   ⟨24⟩, ⟨25⟩, ⟨26⟩, ⟨27⟩, ⟨28⟩, ⟨29⟩, ⟨30⟩, ⟨31⟩,
   ⟨16⟩, ⟨17⟩, ⟨18⟩, ⟨19⟩, ⟨20⟩, ⟨21⟩, ⟨22⟩, ⟨23⟩,
   ⟨8⟩, ⟨9⟩, ⟨10⟩, ⟨11⟩, ⟨12⟩, ⟨13⟩, ⟨14⟩, ⟨15⟩,
   ⟨0⟩, ⟨1⟩, ⟨2⟩, ⟨3⟩, ⟨4⟩, ⟨5⟩, ⟨6⟩, ⟨7⟩]

/-- `SQ_INDEX_ORDER` (src/position.rs lines 27-36): A1..H8 in ascending
index order, so entry i is the square with index i. -/
def SQ_INDEX_ORDER : List Square :=
  [⟨0⟩, ⟨1⟩, ⟨2⟩, ⟨3⟩, ⟨4⟩, ⟨5⟩, ⟨6⟩, ⟨7⟩,
   ⟨8⟩, ⟨9⟩, ⟨10⟩, ⟨11⟩, ⟨12⟩, ⟨13⟩, ⟨14⟩, ⟨15⟩,
   ⟨16⟩, ⟨17⟩, ⟨18⟩, ⟨19⟩, ⟨20⟩, ⟨21⟩, ⟨22⟩, ⟨23⟩,
   ⟨24⟩, ⟨25⟩, ⟨26⟩, ⟨27⟩, ⟨28⟩, ⟨29⟩, ⟨30⟩, ⟨31⟩,
   ⟨32⟩, ⟨33⟩, ⟨34⟩, ⟨35⟩, ⟨36⟩, ⟨37⟩, ⟨38⟩, ⟨39⟩,
   ⟨40⟩, ⟨41⟩, ⟨42⟩, ⟨43⟩, ⟨44⟩, ⟨45⟩, ⟨46⟩, ⟨47⟩,
   ⟨48⟩, ⟨49⟩, ⟨50⟩, ⟨51⟩, ⟨52⟩, ⟨53⟩, ⟨54⟩, ⟨55⟩,
   ⟨56⟩, ⟨57⟩, ⟨58⟩, ⟨59⟩, ⟨60⟩, ⟨61⟩, ⟨62⟩, ⟨63⟩]

/-- `DEFAULT_FEN_STRING` (src/position.rs line 8). -/
def DEFAULT_FEN_STRING : String :=
  "rnbqkbnr/pppppppp/8/8/8/8/PPPPPPPP/RNBQKBNR w KQkq - 0 1"

/-- The failure modes of `from_fen`.  In the Rust source every one of
these aborts the process: `fieldOOB` and `squareOOB` are slice-index
panics (on the field vector resp. on one of the square-order arrays),
`formatError` is an explicit abort in a match arm, `parseError` is an
`unwrap` of a failed numeric parse, and the two arithmetic errors are
the debug-build aborts on `u32` overflow and underflow. -/
inductive FenError
  | fieldOOB
  | squareOOB
  | formatError
  | parseError
  | arithUnderflow
  | arithOverflow
deriving DecidableEq, Repr

/-- Sequencing of fallible steps: the explicit bind of `Except FenError`. -/
def eBind {α β : Type} (x : Except FenError α) (f : α → Except FenError β) :
    Except FenError β :=
  match x with
  | .error e => .error e
  | .ok a => f a

/-- Indexing `fields[i]` on the vector of FEN fields; out of range is the
slice-index abort. -/
def getField (fields : List String) (i : Nat) : Except FenError String :=
  match fields.get? i with
  | some s => .ok s
  | none => .error .fieldOOB

/-- `str.split_whitespace()`: split on whitespace, dropping empty chunks.
(The Rust version recognizes all Unicode whitespace; the FEN grammar and
every input in this development only use the ASCII blanks covered by
`Char.isWhitespace`.) -/
def splitWsAux : List Char → List Char → List String
  | [], acc => if acc.isEmpty then [] else [String.mk acc.reverse]
  | c :: cs, acc =>
    if c.isWhitespace then
      if acc.isEmpty then splitWsAux cs []
      else String.mk acc.reverse :: splitWsAux cs []
    else splitWsAux cs (c :: acc)

def splitWhitespace (s : String) : List String := splitWsAux s.data []

/-- The Position literal built at the top of `from_fen`
(src/position.rs lines 92-101). -/
def initPos : Position :=
  { bbs := List.replicate 8 0
    bbs_color := List.replicate 2 0
    board := List.replicate 64 Piece.None
    turn := Color.White
    castle_rights := Castling.C_NONE
    ep_square := Square.NONE
    rule50_count := 0
    game_ply := 1 }

/-- The piece letter alphabet of the placement field
(src/position.rs lines 111-119); any other character maps to the None kind. -/
def pieceTypeOfChar (c : Char) : PieceType :=
  match c with
  | 'p' | 'P' => .P
  | 'n' | 'N' => .N
  | 'b' | 'B' => .B
  | 'r' | 'R' => .R
  | 'q' | 'Q' => .Q
  | 'k' | 'K' => .K
  | _ => .None

/-- The placement loop of `from_fen` (src/position.rs lines 104-123): a
digit advances the display-order cursor, `/` is skipped, any other
character places `Piece::make(case-color, letter-kind)` at the cursor.
The cursor indexes `SQ_DISPLAY_ORDER`; past its end the Rust code hits
the array-index abort.  (Rust decides the color by `is_uppercase`; for
every character this yields the same placed piece as `Char.isUpper`,
because unrecognized letters produce `Piece.None` under either color.) -/
def placementLoop : List Char → Position → Nat → Except FenError Position
  | [], p, _ => .ok p
  | c :: cs, p, idx =>
    if c.isDigit then
      placementLoop cs p (idx + 1 * (c.toNat - 48))
    else if c = '/' then
      placementLoop cs p idx
    else
      match SQ_DISPLAY_ORDER.get? idx with
      | none => .error .squareOOB
      | some sq =>
        let color := if c.isUpper then Color.White else Color.Black
        placementLoop cs (p.put_piece (Piece.make color (pieceTypeOfChar c)) sq) (idx + 1)

/-- Field 2 of `from_fen` (src/position.rs lines 126-130): exactly the two
literal arms `"w"` and `"b"`; the wildcard arm aborts. -/
def parseTurn (s : String) : Except FenError Color :=
  if s = "w" then .ok Color.White
  else if s = "b" then .ok Color.Black
  else .error .formatError

/-- One character of the castling field (src/position.rs lines 133-141). -/
def castlingBitOf (c : Char) : Castling :=
  match c with
  | 'K' => Castling.C_WHITE_K
  | 'Q' => Castling.C_WHITE_Q
  | 'k' => Castling.C_BLACK_K
  | 'q' => Castling.C_BLACK_Q
  | _ => Castling.C_NONE

/-- Field 3 of `from_fen`: or together the bits of every character,
starting from the `C_NONE` the Position literal holds. -/
def parseCastling (s : String) : Castling :=
  s.data.foldl (fun acc c => acc.or (castlingBitOf c)) Castling.C_NONE

/-- The first character of the en-passant field
(src/position.rs lines 146-157): `-` is the sentinel, a file letter is
the rank-3 square of that file, anything else aborts. -/
def epFileSquare (c : Char) : Except FenError Square :=
  match c with
  | '-' => .ok Square.NONE
  | 'a' => .ok Square.A3
  | 'b' => .ok Square.B3
  | 'c' => .ok Square.C3
  | 'd' => .ok Square.D3
  | 'e' => .ok Square.E3
  | 'f' => .ok Square.F3
  | 'g' => .ok Square.G3
  | 'h' => .ok Square.H3
  | _ => .error .formatError

/-- Field 4 of `from_fen` (src/position.rs lines 144-161): the enumerated
loop decodes character 0 with `epFileSquare`; whenever a character at
position 1 exists (its value is never inspected) the square is replaced
by `SQ_INDEX_ORDER[index + 24]`; characters past position 1 do nothing. -/
def parseEp (s : String) : Except FenError Square :=
  match s.data with
  | [] => .ok Square.NONE
  | c :: rest =>
    eBind (epFileSquare c) fun sq =>
      match rest with
      | [] => .ok sq
      | _ :: _ =>
        match SQ_INDEX_ORDER.get? (sq.index + 24) with
        | some sq2 => .ok sq2
        | none => .error .squareOOB

/-- `str.parse::<u32>()`: an optional leading plus sign, then at least one
decimal digit, value below 2^32; anything else fails. -/
def parseDigitsAcc : List Char → Nat → Option Nat
  | [], acc => some acc
  | c :: cs, acc =>
    if c.isDigit then parseDigitsAcc cs (acc * 10 + (c.toNat - 48)) else none

def parseU32 (s : String) : Option Nat :=
  let cs := match s.data with
    | '+' :: rest => rest
    | l => l
  match cs with
  | [] => none
  | _ :: _ =>
    match parseDigitsAcc cs 0 with
    | none => none
    | some v => if v < 2 ^ 32 then some v else none

/-- `fields[i].parse().unwrap()`: a failed parse is the `unwrap` abort. -/
def parseU32E (s : String) : Except FenError Nat :=
  match parseU32 s with
  | some v => .ok v
  | none => .error .parseError

/-- The `if matches!(p.turn, Color::Black) {1} else {0}` summand of the
ply derivation (src/position.rs line 168). -/
def colorBit (turn : Color) : Nat := if turn = Color.Black then 1 else 0

/-- The ply derivation of `from_fen` (src/position.rs lines 167-168):
`2 * (fullmove - 1) + (1 if Black to move else 0)` over `u32`.  A Rust
debug build aborts when `fullmove - 1` underflows (fullmove = 0) and
when the doubling or the addition leaves the 32-bit range; the embedding
returns the corresponding error in those cases. -/
def computePly (fullmove : Nat) (turn : Color) : Except FenError Nat :=
  if fullmove = 0 then .error .arithUnderflow
  else if 2 * (fullmove - 1) + colorBit turn < 2 ^ 32 then
    .ok (2 * (fullmove - 1) + colorBit turn)
  else .error .arithOverflow

/-- The body of `Position::from_fen` (src/position.rs lines 61-170) after
the whitespace split, processing the six fields strictly in order.  The
Rust code mutates one Position record in place; the embedding threads
the same updates and builds the same final record. -/
def fromFenFields (fields : List String) : Except FenError Position :=
  eBind (getField fields 0) fun f0 =>
  eBind (placementLoop f0.data initPos 0) fun p1 =>
  eBind (getField fields 1) fun f1 =>
  eBind (parseTurn f1) fun turn =>
  eBind (getField fields 2) fun f2 =>
  eBind (getField fields 3) fun f3 =>
  eBind (parseEp f3) fun ep =>
  eBind (getField fields 4) fun f4 =>
  eBind (parseU32E f4) fun r50 =>
  eBind (getField fields 5) fun f5 =>
  eBind (parseU32E f5) fun fullmove =>
  eBind (computePly fullmove turn) fun ply =>
  .ok { p1 with
        turn := turn
        castle_rights := parseCastling f2
        ep_square := ep
        rule50_count := r50
        game_ply := ply }

/-- `Position::from_fen` on the input string. -/
def fromFen (s : String) : Except FenError Position :=
  fromFenFields (splitWhitespace s)

/-- Union of the six real per-kind bitboards (spec section 8 measurement). -/
def Position.unionKinds (p : Position) : Bitboard :=
  p.bbs.getD 1 0 ||| p.bbs.getD 2 0 ||| p.bbs.getD 3 0 |||
  p.bbs.getD 4 0 ||| p.bbs.getD 5 0 ||| p.bbs.getD 6 0

/-- Union of the two per-color bitboards (spec section 8 measurement). -/
def Position.unionColors (p : Position) : Bitboard :=
  p.bbs_color.getD 0 0 ||| p.bbs_color.getD 1 0

/-- Number of set bits in the low 64 bits of a value (fuel-structured so
that concrete instances reduce definitionally). -/
def popCountAux : Nat → Nat → Nat
  | 0, _ => 0
  | fuel + 1, n => if n = 0 then 0 else n % 2 + popCountAux fuel (n / 2)

def popCount (n : Nat) : Nat := popCountAux 64 n

/-! ### Helper lemmas about the embedding -/

/-- A sequenced step succeeds exactly when both halves succeed. -/
theorem eBind_ok_iff {α β : Type} {x : Except FenError α} {f : α → Except FenError β}
    {b : β} : eBind x f = .ok b ↔ ∃ a, x = .ok a ∧ f a = .ok b := by
  cases x <;> simp [eBind]

/-- A sequenced step fails exactly when one half fails. -/
theorem eBind_error_elim {α β : Type} {x : Except FenError α} {f : α → Except FenError β}
    {e : FenError} (h : eBind x f = .error e) :
    x = .error e ∨ ∃ a, x = .ok a ∧ f a = .error e := by
  cases x with
  | error e1 =>
    left
    simp only [eBind] at h
    injection h with h1
    rw [h1]
  | ok a => exact Or.inr ⟨a, rfl, h⟩

theorem getField_ok_iff {fields : List String} {i : Nat} {s : String} :
    getField fields i = .ok s ↔ fields.get? i = some s := by
  unfold getField
  cases fields.get? i <;> simp

theorem getField_error_none {fields : List String} {i : Nat} {e : FenError}
    (h : getField fields i = .error e) : fields.get? i = none := by
  unfold getField at h
  cases hg : fields.get? i with
  | none => rfl
  | some t => rw [hg] at h; cases h

/-- With the right shift of the source, every square other than A1 maps to
the empty bitboard. -/
theorem to_bb_eq_zero_of_pos {n : Nat} (h : 1 ≤ n) : Square.to_bb ⟨n⟩ = 0 := by
  show 1 >>> n = 0
  rw [Nat.shiftRight_eq_div_pow]
  exact Nat.div_eq_of_lt (Nat.one_lt_pow (by omega) (by decide))

/-- The placement loop fails only with the square-array index abort. -/
theorem placementLoop_error_classify {cs : List Char} :
    ∀ {p : Position} {idx : Nat} {e : FenError},
      placementLoop cs p idx = .error e → e = .squareOOB := by
  induction cs with
  | nil => intro p idx e h; cases h
  | cons c cs ih =>
    intro p idx e h
    simp only [placementLoop] at h
    split at h
    · exact ih h
    · split at h
      · exact ih h
      · split at h
        · injection h with h1; exact h1.symm
        · exact ih h

theorem parseTurn_error_classify {s : String} {e : FenError}
    (h : parseTurn s = .error e) : e = .formatError := by
  unfold parseTurn at h
  split at h
  · cases h
  · split at h
    · cases h
    · injection h with h1; exact h1.symm

theorem epFileSquare_error_classify {c : Char} {e : FenError}
    (h : epFileSquare c = .error e) : e = .formatError := by
  unfold epFileSquare at h
  split at h <;> (cases h; try rfl)

theorem parseEp_error_classify {s : String} {e : FenError}
    (h : parseEp s = .error e) : e = .formatError ∨ e = .squareOOB := by
  unfold parseEp at h
  split at h
  · cases h
  · rcases eBind_error_elim h with h1 | ⟨sq, _, h2⟩
    · exact Or.inl (epFileSquare_error_classify h1)
    · split at h2
      · cases h2
      · split at h2
        · cases h2
        · injection h2 with h3; exact Or.inr h3.symm

theorem parseU32E_error_classify {s : String} {e : FenError}
    (h : parseU32E s = .error e) : e = .parseError := by
  unfold parseU32E at h
  split at h
  · cases h
  · injection h with h1; exact h1.symm

theorem computePly_error_classify {fm : Nat} {t : Color} {e : FenError}
    (h : computePly fm t = .error e) : e = .arithUnderflow ∨ e = .arithOverflow := by
  unfold computePly at h
  split at h
  · injection h with h1; exact Or.inl h1.symm
  · split at h
    · cases h
    · injection h with h1; exact Or.inr h1.symm

theorem computePly_ok_value {fm : Nat} {t : Color} {ply : Nat}
    (h : computePly fm t = .ok ply) :
    ply = 2 * (fm - 1) + (if t = Color.Black then 1 else 0) := by
  unfold computePly at h
  split at h
  · cases h
  · split at h
    · injection h with h1; rw [← h1, colorBit]
    · cases h

theorem computePly_ne_underflow {fm : Nat} {t : Color} (h : 1 ≤ fm) :
    computePly fm t ≠ .error .arithUnderflow := by
  unfold computePly
  rw [if_neg (by omega)]
  split
  · intro hc; cases hc
  · intro hc; injection hc with h1; cases h1

theorem parseU32E_ok_iff {s : String} {v : Nat} :
    parseU32E s = .ok v ↔ parseU32 s = some v := by
  unfold parseU32E
  cases parseU32 s <;> simp

theorem get?_some_lt {α : Type} {l : List α} {n : Nat} {a : α}
    (h : l.get? n = some a) : n < l.length := by
  by_contra hc
  rw [List.get?_eq_none.mpr (by omega)] at h
  cases h

/-! ### The claims -/

/-- C1: the claim states that for every real square s (index 0..63),
`Square.to_bb` returns a set with exactly one bit set, at position
`s.index` (the value 1 <<< index).  The source computes `1 >> index`, so
the result is the empty set for every index from 1 to 63; only A1
(index 0) happens to match.  Evidence at the failing input B1 (index 1),
with H8 (index 63) and the accidental A1 agreement alongside. -/
theorem to_bb_right_shift_defect :
    Square.to_bb ⟨1⟩ = 0 ∧ popCount (Square.to_bb ⟨1⟩) = 0 ∧
    Square.to_bb ⟨1⟩ ≠ 1 <<< 1 ∧ Square.to_bb ⟨63⟩ = 0 ∧
    Square.to_bb ⟨0⟩ = 1 := by decide

/-- C2: the claim states that after `put_piece p s` with a valid piece,
bit s is set in the per-kind and per-color bitboards and the board array
holds p.  Because `to_bb` is the empty set away from A1, placing a White
pawn on B1 (index 1) leaves bit 1 clear in `bbs[P]` and in
`bbs_color[White]`, while the direct-array entry is written correctly. -/
theorem put_piece_misses_bitboards :
    ((initPos.put_piece Piece.WhitePawn ⟨1⟩).bbs.getD PieceType.P.toNat 0).testBit 1 = false ∧
    ((initPos.put_piece Piece.WhitePawn ⟨1⟩).bbs_color.getD Color.White.toNat 0).testBit 1
      = false ∧
    (initPos.put_piece Piece.WhitePawn ⟨1⟩).board.getD 1 Piece.None = Piece.WhitePawn := by
  decide

/-- C3: the claim states that en-passant field "e3" under White to move
decodes to E3 (index 20), with the +24 rank-6 correction applied only
when applicable.  The source applies the correction whenever a second
character is present, so "e3" decodes to E6 (index 44), the same square
as "e6". -/
theorem ep_rank_correction_unconditional :
    (fromFen "8/8/8/8/8/8/8/8 w - e3 0 1").map (fun p => p.ep_square.index) = .ok 44 ∧
    (fromFen "8/8/8/8/8/8/8/8 b - e6 0 1").map (fun p => p.ep_square.index) = .ok 44 ∧
    Square.E3.index = 20 ∧ (44 : Nat) ≠ 20 :=
  ⟨rfl, rfl, rfl, by decide⟩

/-- C4: the claim states that after decoding the starting FEN the union of
the six real per-kind bitboards equals the union of the two per-color
bitboards and both have 32 set bits.  The unions are indeed equal, but
because `to_bb` is the empty set away from A1 both equal the single bit
of A1 (the White rook placed there), so the population count is 1, not
32. -/
theorem start_fen_unions_one_bit :
    (fromFen DEFAULT_FEN_STRING).map
      (fun p => (p.unionKinds, p.unionColors, popCount p.unionKinds)) = .ok (1, 1, 1) := rfl

/-- C5: `Piece.make` round-trips through `color` and `type_of` on all 12
real color-kind combinations, and collapses kind None and All to the
"no piece" value for both colors. -/
theorem make_projection_roundtrip :
    (∀ (c : Color) (k : PieceType), k ≠ PieceType.None → k ≠ PieceType.All →
      (Piece.make c k).color = c ∧ (Piece.make c k).type_of = k) ∧
    ∀ c : Color, Piece.make c PieceType.None = Piece.None ∧
      Piece.make c PieceType.All = Piece.None := by decide

/-- Witness for C5 at the concrete input (Black, Knight). -/
theorem make_projection_roundtrip_witness :
    (Piece.make Color.Black PieceType.N).color = Color.Black ∧
    (Piece.make Color.Black PieceType.N).type_of = PieceType.N :=
  make_projection_roundtrip.1 Color.Black PieceType.N (by decide) (by decide)

/-- C9: the full-move field "0" passes the numeric parse (it is a valid
u32) and then underflows in `2 * (fullmove - 1)`; with fullmove at least
1 the subtraction never underflows. -/
theorem fullmove_zero_underflow :
    fromFen "8/8/8/8/8/8/8/8 w - - 0 0" = .error .arithUnderflow ∧
    parseU32 "0" = some 0 ∧
    ∀ (fm : Nat) (t : Color), 1 ≤ fm → computePly fm t ≠ .error .arithUnderflow := by
  refine ⟨rfl, rfl, ?_⟩
  intro fm t h
  exact computePly_ne_underflow h

/-- Witness for C9 at fullmove 1, White to move. -/
theorem fullmove_zero_underflow_witness :
    computePly 1 Color.White ≠ .error .arithUnderflow :=
  fullmove_zero_underflow.2.2 1 Color.White (by decide)

/-- C10 counterexample: the claim states that `put_piece` with the
"no piece" value is never a no-op on the bitboards.  On B1 (index 1) the
singleton is the empty set, so both bitboard arrays are left exactly as
they were: the call is a no-op on the Square-Sets. -/
theorem put_none_b1_noop :
    (initPos.put_piece Piece.None ⟨1⟩).bbs = initPos.bbs ∧
    (initPos.put_piece Piece.None ⟨1⟩).bbs_color = initPos.bbs_color := by decide

/-- C10 (amended): the "no piece" value projects to color White and kind
None, `put_piece` with it ors `s.to_bb` into `bbs[0]` (the None kind row)
and `bbs_color[0]` (the White row), and an unrecognized placement letter
routes through exactly this call; but since `to_bb` is the empty set for
every square except A1, the or changes the Square-Sets only at A1. -/
theorem put_none_updates_none_and_white :
    Piece.None.color = Color.White ∧ Piece.None.type_of = PieceType.None ∧
    (∀ (p : Position) (s : Square),
      (p.put_piece Piece.None s).bbs = p.bbs.set 0 (p.bbs.getD 0 0 ||| s.to_bb) ∧
      (p.put_piece Piece.None s).bbs_color =
        p.bbs_color.set 0 (p.bbs_color.getD 0 0 ||| s.to_bb)) ∧
    (∀ s : Square, 1 ≤ s.index → s.to_bb = 0) ∧
    ∀ (p : Position) (idx : Nat) (c : Char) (cs : List Char) (sq : Square),
      ¬c.isDigit → c ≠ '/' → pieceTypeOfChar c = PieceType.None →
      SQ_DISPLAY_ORDER.get? idx = some sq →
      placementLoop (c :: cs) p idx = placementLoop cs (p.put_piece Piece.None sq) (idx + 1) := by
  refine ⟨rfl, rfl, fun p s => ⟨rfl, rfl⟩, ?_, ?_⟩
  · intro s h
    obtain ⟨n⟩ := s
    exact to_bb_eq_zero_of_pos h
  · intro p idx c cs sq h1 h2 h3 h4
    simp only [placementLoop, if_neg h1, if_neg h2, h4, h3]
    split <;> rfl

/-- Witness for C10 (amended): the empty singleton at F1 (index 5), and
one unrecognized-letter placement step at display cursor 0 (square A8,
index 56). -/
theorem put_none_updates_none_and_white_witness :
    Square.to_bb ⟨5⟩ = 0 ∧
    placementLoop ['x'] initPos 0 =
      placementLoop [] (initPos.put_piece Piece.None ⟨56⟩) 1 :=
  ⟨put_none_updates_none_and_white.2.2.2.1 ⟨5⟩ (by decide),
   put_none_updates_none_and_white.2.2.2.2 initPos 0 'x' [] ⟨56⟩
     (by decide) (by decide) (by decide) rfl⟩

/-- C6: the side-to-move field accepts exactly "w" and "b"; any other
token hits the abort arm of the match, and a field list whose second
entry is such a token can never decode to a Position. -/
theorem turn_accepts_w_b_only :
    parseTurn "w" = .ok Color.White ∧ parseTurn "b" = .ok Color.Black ∧
    ∀ s : String, s ≠ "w" → s ≠ "b" →
      parseTurn s = .error .formatError ∧
      ∀ (fields : List String) (p : Position),
        fields.get? 1 = some s → fromFenFields fields ≠ .ok p := by
  refine ⟨rfl, rfl, ?_⟩
  intro s h1 h2
  have ht : parseTurn s = .error .formatError := by
    unfold parseTurn
    rw [if_neg h1, if_neg h2]
  refine ⟨ht, ?_⟩
  intro fields p hget hok
  unfold fromFenFields at hok
  obtain ⟨f0, h0, hok⟩ := eBind_ok_iff.mp hok
  obtain ⟨p1, hp1, hok⟩ := eBind_ok_iff.mp hok
  obtain ⟨f1, hf1, hok⟩ := eBind_ok_iff.mp hok
  obtain ⟨t, hturn, hok⟩ := eBind_ok_iff.mp hok
  rw [getField_ok_iff.mp hf1] at hget
  injection hget with hfs
  rw [hfs, ht] at hturn
  cases hturn

/-- Witness for C6 at the token "x" and a concrete field list. -/
theorem turn_accepts_w_b_only_witness :
    parseTurn "x" = .error .formatError ∧
    fromFenFields ["8", "x", "-", "-", "0", "1"] ≠ .ok initPos :=
  ⟨(turn_accepts_w_b_only.2.2 "x" (by decide) (by decide)).1,
   (turn_accepts_w_b_only.2.2 "x" (by decide) (by decide)).2
     ["8", "x", "-", "-", "0", "1"] initPos rfl⟩

/-- The Position decoded from the field list of "8 b - - 7 3": an empty
board, Black to move, half-move clock 7, full move 3, hence ply 5. -/
def posDemo : Position :=
  { initPos with turn := Color.Black, rule50_count := 7, game_ply := 5 }

/-- C7: whenever `from_fen` yields a Position, its half-move clock is the
parsed value of field 4 and its ply is `2 * (fullmove - 1)` plus one for
Black to move; in particular "0 1" gives clock 0 and ply 0, and "4 5"
under Black to move gives ply 9. -/
theorem clock_and_ply_derivation :
    (∀ (str : String) (p : Position) (s4 s5 : String) (h f : Nat),
      fromFen str = .ok p →
      (splitWhitespace str).get? 4 = some s4 →
      (splitWhitespace str).get? 5 = some s5 →
      parseU32 s4 = some h → parseU32 s5 = some f → 1 ≤ f →
      p.rule50_count = h ∧
      p.game_ply = 2 * (f - 1) + (if p.turn = Color.Black then 1 else 0)) ∧
    (fromFen "8/8/8/8/8/8/8/8 w - - 0 1").map (fun p => (p.rule50_count, p.game_ply))
      = .ok (0, 0) ∧
    (fromFen "8/8/8/8/8/8/8/8 b - - 4 5").map (fun p => p.game_ply) = .ok 9 := by
  refine ⟨?_, rfl, rfl⟩
  intro str p s4 s5 h f hok hg4 hg5 hp4 hp5 hf1
  unfold fromFen fromFenFields at hok
  obtain ⟨f0, h0, hok⟩ := eBind_ok_iff.mp hok
  obtain ⟨p1, hpl, hok⟩ := eBind_ok_iff.mp hok
  obtain ⟨f1, h1, hok⟩ := eBind_ok_iff.mp hok
  obtain ⟨t, hturn, hok⟩ := eBind_ok_iff.mp hok
  obtain ⟨f2, h2, hok⟩ := eBind_ok_iff.mp hok
  obtain ⟨f3, h3, hok⟩ := eBind_ok_iff.mp hok
  obtain ⟨ep, hep, hok⟩ := eBind_ok_iff.mp hok
  obtain ⟨f4, h4, hok⟩ := eBind_ok_iff.mp hok
  obtain ⟨r50, hr50, hok⟩ := eBind_ok_iff.mp hok
  obtain ⟨f5, h5, hok⟩ := eBind_ok_iff.mp hok
  obtain ⟨fm, hfm, hok⟩ := eBind_ok_iff.mp hok
  obtain ⟨ply, hply, hok⟩ := eBind_ok_iff.mp hok
  injection hok with hok
  rw [getField_ok_iff.mp h4] at hg4
  injection hg4 with hg4
  rw [getField_ok_iff.mp h5] at hg5
  injection hg5 with hg5
  rw [hg4] at hr50
  rw [parseU32E_ok_iff.mp hr50] at hp4
  injection hp4 with hp4
  rw [hg5] at hfm
  rw [parseU32E_ok_iff.mp hfm] at hp5
  injection hp5 with hp5
  have hplyv := computePly_ok_value hply
  rw [← hok]
  constructor
  · exact hp4
  · show ply = 2 * (f - 1) + (if t = Color.Black then 1 else 0)
    rw [hplyv, hp5]

/-- Witness for C7 at the concrete input "8 b - - 7 3". -/
theorem clock_and_ply_derivation_witness :
    posDemo.rule50_count = 7 ∧
    posDemo.game_ply = 2 * (3 - 1) + (if posDemo.turn = Color.Black then 1 else 0) :=
  clock_and_ply_derivation.1 "8 b - - 7 3" posDemo "7" "3" 7 3 rfl rfl rfl rfl rfl
    (by decide)

/-- C8 counterexample: the claim states that every input with fewer than
six whitespace-separated fields fails with the field-list out-of-bounds
panic.  The two-field input "8 x" instead fails in the side-to-move
match arm (the explicit format abort) before any out-of-bounds access. -/
theorem short_input_can_fail_with_format_error :
    (splitWhitespace "8 x").length = 2 ∧
    fromFen "8 x" = .error .formatError ∧
    fromFen "8 x" ≠ .error .fieldOOB := by
  refine ⟨rfl, rfl, ?_⟩
  intro hc
  rw [show fromFen "8 x" = Except.error FenError.formatError from rfl] at hc
  injection hc with h1
  cases h1

/-- C8 (amended): `from_fen` indexes field positions 0 through 5 with no
bounds check, so an input with fewer than six fields never yields a
Position - it aborts, with the field-list out-of-bounds unless an
earlier field aborts first; with six or more fields the field-list
out-of-bounds branch is unreachable. -/
theorem fields_bounds :
    (∀ fields : List String, fields.length < 6 →
      ∀ p : Position, fromFenFields fields ≠ .ok p) ∧
    ∀ fields : List String, 6 ≤ fields.length →
      ∀ e : FenError, fromFenFields fields = .error e → e ≠ .fieldOOB := by
  constructor
  · intro fields hlen p hok
    unfold fromFenFields at hok
    obtain ⟨f0, h0, hok⟩ := eBind_ok_iff.mp hok
    obtain ⟨p1, hp1, hok⟩ := eBind_ok_iff.mp hok
    obtain ⟨f1, h1, hok⟩ := eBind_ok_iff.mp hok
    obtain ⟨t, ht, hok⟩ := eBind_ok_iff.mp hok
    obtain ⟨f2, h2, hok⟩ := eBind_ok_iff.mp hok
    obtain ⟨f3, h3, hok⟩ := eBind_ok_iff.mp hok
    obtain ⟨ep, hep, hok⟩ := eBind_ok_iff.mp hok
    obtain ⟨f4, h4, hok⟩ := eBind_ok_iff.mp hok
    obtain ⟨r50, hr, hok⟩ := eBind_ok_iff.mp hok
    obtain ⟨f5, h5, hok⟩ := eBind_ok_iff.mp hok
    have := get?_some_lt (getField_ok_iff.mp h5)
    omega
  · intro fields hlen e herr hfe
    subst hfe
    unfold fromFenFields at herr
    rcases eBind_error_elim herr with h | ⟨f0, h0, herr⟩
    · exact absurd (List.get?_eq_none.mp (getField_error_none h)) (by omega)
    rcases eBind_error_elim herr with h | ⟨p1, hp1, herr⟩
    · cases placementLoop_error_classify h
    rcases eBind_error_elim herr with h | ⟨f1, h1, herr⟩
    · exact absurd (List.get?_eq_none.mp (getField_error_none h)) (by omega)
    rcases eBind_error_elim herr with h | ⟨t, ht, herr⟩
    · cases parseTurn_error_classify h
    rcases eBind_error_elim herr with h | ⟨f2, h2, herr⟩
    · exact absurd (List.get?_eq_none.mp (getField_error_none h)) (by omega)
    rcases eBind_error_elim herr with h | ⟨f3, h3, herr⟩
    · exact absurd (List.get?_eq_none.mp (getField_error_none h)) (by omega)
    rcases eBind_error_elim herr with h | ⟨ep, hep, herr⟩
    · rcases parseEp_error_classify h with h | h <;> cases h
    rcases eBind_error_elim herr with h | ⟨f4, h4, herr⟩
    · exact absurd (List.get?_eq_none.mp (getField_error_none h)) (by omega)
    rcases eBind_error_elim herr with h | ⟨r50, hr, herr⟩
    · cases parseU32E_error_classify h
    rcases eBind_error_elim herr with h | ⟨f5, h5, herr⟩
    · exact absurd (List.get?_eq_none.mp (getField_error_none h)) (by omega)
    rcases eBind_error_elim herr with h | ⟨fm, hfm, herr⟩
    · cases parseU32E_error_classify h
    rcases eBind_error_elim herr with h | ⟨ply, hply, herr⟩
    · rcases computePly_error_classify h with h | h <;> cases h
    cases herr

/-- Witness for C8 (amended): a five-field input yields no Position, and
with six fields present a failure carries a non-out-of-bounds error. -/
theorem fields_bounds_witness :
    fromFenFields ["8", "w", "-", "-", "0"] ≠ .ok initPos ∧
    FenError.formatError ≠ FenError.fieldOOB :=
  ⟨fields_bounds.1 ["8", "w", "-", "-", "0"] (by decide) initPos,
   fields_bounds.2 ["8", "x", "-", "-", "0", "1"] (by decide) FenError.formatError rfl⟩
